import Mathlib

/-!
Verification of the feedback-statistics aggregation pipeline, the email
delivery adapter and the region report formatter of the psiphon-automation
repository (files `EmailResponder/FeedbackDecryptor/datastore.py`,
`EmailResponder/FeedbackDecryptor/sender.py`, `Automation/psi_mail_stats.py`),
as a shallow embedding in Lean 4.

Python dictionaries holding heterogeneous JSON data are embedded as the
`PyVal` inductive; python truthiness is `pyTruthy`; python strings whose only
role is a length are embedded as `List Char`; MongoDB collections are embedded
as in-memory lists with the documented atomic semantics of the single store
operations (`find_one_and_update` with upsert, `find_one_and_delete`).
-/

/-- A python/JSON scalar value as it occurs in the response-check fields of a
diagnostic record: a string, an integer, a boolean, or `None`/absent. -/
inductive PyVal : Type where
  | str (s : String)
  | int (n : Int)
  | bool (b : Bool)
  | none
deriving DecidableEq, Repr

/-- Python truthiness of a `PyVal`: empty string, `0`, `False` and `None` are
falsy, everything else is truthy. -/
def pyTruthy : PyVal → Bool
  | PyVal.str s => !s.isEmpty
  | PyVal.int n => n != 0
  | PyVal.bool b => b
  | PyVal.none => false

/-- Python `int(s)` restricted to strings of decimal digits (the only shape the
legacy coercion in `_get_stats_helper` is applied to; python raises on other
strings, which is outside the embedded domain). -/
def strToInt (s : String) : Int :=
  s.data.foldl (fun acc c => acc * 10 + (Int.ofNat c.toNat - 48)) 0

/-- The `data` dict of a `ServerResponseCheck` entry of `DiagnosticHistory`:
fields `responded` and `responseTime`, each an arbitrary scalar
(`datastore.py`, `_get_stats_helper`). -/
structure RawCheck : Type where
  responded : PyVal
  responseTime : PyVal
deriving DecidableEq, Repr

/-- One entry of a record's `DiagnosticHistory` list: a `msg` tag and a `data`
dict (`datastore.py`, `_get_stats_helper`). -/
structure HistEntry : Type where
  msg : String
  data : RawCheck
deriving DecidableEq, Repr

/-- The response-check filter of `_get_stats_helper` (both extraction paths,
lines 288-290 and 322-324): keep the `data` of history entries whose `msg` is
`ServerResponseCheck` and whose `responded` and `responseTime` are truthy. -/
def filterChecks (history : List HistEntry) : List RawCheck :=
  (history.filter (fun e =>
    e.msg == "ServerResponseCheck" && pyTruthy e.data.responded
      && pyTruthy e.data.responseTime)).map (fun e => e.data)

/-- The legacy (android, version 1) string coercion of `_get_stats_helper`
lines 292-296: a string `responded` becomes the boolean `responded == "Yes"`,
a string `responseTime` becomes its integer value; other types pass through. -/
def coerceCheck (c : RawCheck) : RawCheck :=
  { responded :=
      match c.responded with
      | PyVal.str s => PyVal.bool (s == "Yes")
      | v => v
    responseTime :=
      match c.responseTime with
      | PyVal.str s => PyVal.int (strToInt s)
      | v => v }

/-- The normalized response-check list of a legacy-path record: history entries
pass the `ServerResponseCheck`/truthiness filter and are then coerced
(`_get_stats_helper` lines 288-296). -/
def legacyChecks (history : List HistEntry) : List RawCheck :=
  (filterChecks history).map coerceCheck

/-- A response check as consumed by the per-group statistics of
`_get_stats_helper` (lines 344-349): after normalization every check carries a
boolean `responded` and a numeric `responseTime`. -/
structure ResponseCheck : Type where
  responded : Bool
  responseTime : Int
deriving DecidableEq, Repr

/-- The `response_times` selection of `_get_stats_helper` line 344: response
times of the checks whose `responded` is true. -/
def responseTimes (checks : List ResponseCheck) : List Int :=
  (checks.filter (fun r => r.responded)).map (fun r => r.responseTime)

/-- The fail-rate of `_get_stats_helper` line 349:
`(len(response_checks) - len(response_times)) / len(response_checks)` when the
group observed any response checks, and `1.0` otherwise. -/
def failrate (checks : List ResponseCheck) : ℚ :=
  if checks.length = 0 then 1
  else ((checks.length : ℚ) - ((responseTimes checks).length : ℚ))
        / (checks.length : ℚ)

/-- A group key of `raw_stats` in `_get_stats_helper`:
`(platform, propagation_channel_id, sponsor_id)`. -/
abbrev GroupKey := String × PyVal × PyVal

/-- One survey answer dict as consumed by the survey reducer of
`_get_stats_helper`: optional `title` and `answer` fields. -/
structure SurveyAnswer : Type where
  title : Option String
  answer : Option String
deriving DecidableEq, Repr

/-- The per-group accumulator of `raw_stats` in `_get_stats_helper`:
`{'count': 0, 'response_checks': [], 'survey_results': []}`. -/
structure RawGroup : Type where
  count : Nat
  response_checks : List RawCheck
  survey_results : List SurveyAnswer
deriving DecidableEq, Repr

/-- The `raw_stats` python dict, as an insertion-ordered association list. -/
abbrev RawStats := List (GroupKey × RawGroup)

/-- The fresh accumulator inserted on first sight of a group. -/
def emptyGroup : RawGroup := { count := 0, response_checks := [], survey_results := [] }

/-- Dict lookup in `raw_stats`, defaulting to the fresh accumulator (mirrors
the `if key not in raw_stats: raw_stats[key] = {...}` idiom). -/
def statsGetD : RawStats → GroupKey → RawGroup
  | [], _ => emptyGroup
  | (k0, g0) :: rest, k => if k0 = k then g0 else statsGetD rest k

/-- Dict write to `raw_stats`: update in place when the key exists, append
otherwise (python dicts preserve insertion order). -/
def statsSet : RawStats → GroupKey → RawGroup → RawStats
  | [], k, g => [(k, g)]
  | (k0, g0) :: rest, k, g =>
      if k0 = k then (k, g) :: rest else (k0, g0) :: statsSet rest k g

/-- A legacy-path (android, `Metadata.version` 1) diagnostic record, with the
fields `_get_stats_helper` lines 277-302 reads flattened from their nested
paths: `SystemInformation.psiphonEmbeddedValues.PROPAGATION_CHANNEL_ID`,
`...SPONSOR_ID` (an absent path is `PyVal.none`) and `DiagnosticHistory`. -/
structure LegacyRec : Type where
  propagation_channel_id : PyVal
  sponsor_id : PyVal
  diagnosticHistory : List HistEntry
deriving DecidableEq, Repr

/-- A current-path diagnostic record (android version > 2 or windows
version > 1), fields flattened from
`DiagnosticInfo.SystemInformation.PsiphonInfo.{PROPAGATION_CHANNEL_ID,SPONSOR_ID}`,
`DiagnosticInfo.DiagnosticHistory` and `Feedback.Survey.results`
(`surveyResults = Option.none` embeds a value that is not a list and is
defensively replaced by `[]`, lines 326-328). -/
structure CurrentRec : Type where
  propagation_channel_id : PyVal
  sponsor_id : PyVal
  diagnosticHistory : List HistEntry
  surveyResults : Option (List SurveyAnswer)
deriving DecidableEq, Repr

/-- Processing of one legacy-path record by `_get_stats_helper` lines 277-302:
`if not propagation_channel_id or not sponsor_id: continue`, else extend the
group's response checks (filtered and coerced) and increment its count. -/
def legacyStep (s : RawStats) (rec : LegacyRec) : RawStats :=
  if pyTruthy rec.propagation_channel_id && pyTruthy rec.sponsor_id then
    let key : GroupKey := ("android", rec.propagation_channel_id, rec.sponsor_id)
    let g := statsGetD s key
    statsSet s key
      { count := g.count + 1,
        response_checks := g.response_checks ++ legacyChecks rec.diagnosticHistory,
        survey_results := g.survey_results }
  else s

/-- Processing of one current-path record by `_get_stats_helper` lines
309-335: same drop test, then extend the group's response checks (filtered,
uncoerced) and survey results and increment its count. -/
def currentStep (platform : String) (s : RawStats) (rec : CurrentRec) : RawStats :=
  if pyTruthy rec.propagation_channel_id && pyTruthy rec.sponsor_id then
    let key : GroupKey := (platform, rec.propagation_channel_id, rec.sponsor_id)
    let g := statsGetD s key
    statsSet s key
      { count := g.count + 1,
        response_checks := g.response_checks ++ filterChecks rec.diagnosticHistory,
        survey_results := g.survey_results ++ rec.surveyResults.getD [] }
  else s

/-- A MIME subtype of a body part assembled by `sender.py`:
`('plain', body_text)` or `('html', body_html)`. -/
inductive Mime : Type where
  | plain
  | html
deriving DecidableEq, Repr

/-- Python truthiness of an optional string (here a `List Char`): `None` and
the empty string are falsy. -/
def optTruthy : Option (List Char) → Bool
  | Option.none => false
  | some t => !t.isEmpty

/-- `_SES_EMAIL_SIZE_LIMIT` of `sender.py` line 27: the fixed SES message size
ceiling, 10 MiB. -/
def SES_EMAIL_SIZE_LIMIT : Nat := 10485760

/-- The `body` list assembled by `send_response` lines 83-87: append the plain
part when `body_text` is truthy, then the HTML part when `body_html` is. -/
def bodyParts (bodyText bodyHtml : Option (List Char)) : List (Mime × List Char) :=
  (if optTruthy bodyText then [(Mime.plain, bodyText.getD [])] else [])
    ++ (if optTruthy bodyHtml then [(Mime.html, bodyHtml.getD [])] else [])

/-- Modelled from the spec: `sendmail.create_raw_email` lives in
`EmailResponder/sendmail.py`, which is not part of this snapshot. Per the
spec it assembles a standard internet message with optional plain-text and
HTML alternative parts, and a completely empty message body results in a
no-op send, embedded here as returning no message. The headers and MIME
framing the encoding adds are abstracted into fixed per-message and per-part
overhead constants; the result is embedded as the byte size (`len`) of the
assembled message. -/
def create_raw_email (parts : List (Mime × List Char)) : Option Nat :=
  if parts.isEmpty then Option.none
  else some (512 + (parts.map (fun p => 128 + p.2.length)).sum)

/-- `send_response` of `sender.py` lines 63-115: no-op when attachments are
present (disabled) or no message assembles; when the assembled message
exceeds `_SES_EMAIL_SIZE_LIMIT`, `body.pop()` drops the last part and the
message is rebuilt before sending. The result is the body-part list and size
of the message handed to `sendmail.send_raw_email_amazonses`, or `none` when
nothing is sent. -/
def send_response (bodyText bodyHtml : Option (List Char)) (attachments : Bool) :
    Option (List (Mime × List Char) × Nat) :=
  if attachments then Option.none
  else
    let body := bodyParts bodyText bodyHtml
    match create_raw_email body with
    | Option.none => Option.none
    | some size =>
        if size > SES_EMAIL_SIZE_LIMIT then
          let body2 := body.dropLast
          match create_raw_email body2 with
          | Option.none => Option.none
          | some size2 => some (body2, size2)
        else some (body, size)

/-- The `response_blacklist` collection within the retention window: one
document per inserted address, with its insertion time. -/
abbrev Blacklist := List (String × Nat)

/-- Number of blacklist documents for an address. -/
def countAddr (store : Blacklist) (address : String) : Nat :=
  (store.filter (fun e => e.1 == address)).length

/-- `check_and_add_response_address_blacklist` of `datastore.py` lines
191-202: one atomic `find_one_and_update` with `upsert=True` whose update is
only `$setOnInsert`: when a document with the address exists it is returned
unchanged (result `True`), otherwise a fresh document is inserted and no
prior document is returned (result `False`). Result: the returned boolean
and the collection after the operation. -/
def check_and_add_response_address_blacklist (store : Blacklist)
    (address : String) (now : Nat) : Bool × Blacklist :=
  if store.any (fun e => e.1 == address) then (true, store)
  else (false, store ++ [(address, now)])

/-- A `diagnostic_info` document as far as `insert_diagnostic_info` inspects
it: the embedded `Metadata.id` (absent = `Option.none`) and the `datetime`
stamped at insertion. -/
structure DiagDoc : Type where
  metadata_id : Option String
  datetime : Nat
deriving DecidableEq, Repr

/-- Number of stored documents carrying a given `Metadata.id`. -/
def countId (store : List DiagDoc) (i : String) : Nat :=
  (store.filter (fun d => d.metadata_id == some i)).length

/-- `insert_diagnostic_info` of `datastore.py` lines 118-135: reject and log
when `Metadata.id` is missing; find a pre-existing document with the same id
and, when found, log the duplicate and return `None` without storing; else
stamp `datetime` and insert. The successful return (the Mongo `_id` of the
new document) is embedded as `some` of the feedback id; every failure
returns `Option.none` (the python function returns rather than raising).
State is threaded explicitly as (result, store, error log). -/
def insert_diagnostic_info (store : List DiagDoc) (log : List String)
    (obj : DiagDoc) (now : Nat) : Option String × List DiagDoc × List String :=
  match obj.metadata_id with
  | Option.none =>
      (Option.none, store, log ++ ["insert_diagnostic_info: missing id"])
  | some i =>
      if store.any (fun d => d.metadata_id == some i) then
        (Option.none, store, log ++ ["insert_diagnostic_info: duplicate id " ++ i])
      else
        (some i, store ++ [{ obj with datetime := now }], log)

/-- State of the `autoresponder` collection during a concurrent run of
`get_autoresponder_iterator` callers: the remaining queue and, in pop order,
which caller received which entry. Entries are embedded by their ids. -/
structure QueueState : Type where
  queue : List Nat
  yields : List (Nat × Nat)
deriving DecidableEq, Repr

/-- One `find_one_and_delete(filter={})` of `get_autoresponder_iterator`
(`datastore.py` lines 179-184) executed by caller `c`: an atomic
fetch-and-delete of the first document (the MongoDB guarantee the code
relies on); on an empty collection the state is unchanged and the caller's
iterator stops. -/
def popStep (s : QueueState) (c : Nat) : QueueState :=
  match s.queue with
  | [] => s
  | e :: rest => { queue := rest, yields := s.yields ++ [(c, e)] }

/-- A concurrent run: an arbitrary interleaving of the callers' atomic pops,
given by the sequence of caller ids. -/
def runPops (s : QueueState) (callers : List Nat) : QueueState :=
  callers.foldl popStep s

/-- Ascending sort of the response-time sample, as `numpy.percentile` sorts
its input; a stable insertion sort. -/
def sortAsc (xs : List ℚ) : List ℚ := List.insertionSort (fun a b => a ≤ b) xs

/-- Access into the sorted sample with the index clipping of
`numpy.percentile`: positions past the last element read the last element
(the empty sample, excluded by the caller, defaults to 0). -/
def sortedNth (s : List ℚ) (j : Nat) : ℚ := s.getD (min j (s.length - 1)) 0

/-- Linear interpolation at fractional position `pos` of the sorted sample
`s`: `numpy.percentile(..., interpolation='linear')` reads
`s[⌊pos⌋] + (pos - ⌊pos⌋) * (s[⌊pos⌋+1] - s[⌊pos⌋])`. -/
def interpAt (s : List ℚ) (pos : ℚ) : ℚ :=
  sortedNth s (Int.toNat ⌊pos⌋)
    + (pos - (Int.toNat ⌊pos⌋ : ℚ))
      * (sortedNth s (Int.toNat ⌊pos⌋ + 1) - sortedNth s (Int.toNat ⌊pos⌋))

/-- `numpy.percentile(xs, q)` with linear interpolation: interpolate at
position `q/100 * (n-1)` of the ascending sorted sample. -/
def percentileLinear (xs : List ℚ) (q : ℚ) : ℚ :=
  if xs.length = 0 then 0
  else interpAt (sortAsc xs) (q * ((xs.length : ℚ) - 1) / 100)

/-- The `quartiles` of `_get_stats_helper` line 348:
`numpy.percentile(response_times, [5.0, 25.0, 50.0, 75.0, 95.0])`. -/
def quartiles (xs : List ℚ) : List ℚ :=
  [5, 25, 50, 75, 95].map (percentileLinear xs)

/-- Input of one time-window column of a metric's report in
`psi_mail_stats.py`: the column label, the `(region, count)` rows returned by
the by-region query, and the value of the separate total query
(lines 172-183). -/
abbrev WindowData := String × List (String × Int) × Int

/-- One entry of `table_dict`: a region and its per-column value dict. -/
abbrev TableRow := String × List (String × Int)

/-- `defaultdict(int)` read of a region's per-column dict: a missing column
reads 0 (lines 188, 198). -/
def colGetD (m : List (String × Int)) (col : String) : Int :=
  match m with
  | [] => 0
  | (c, v) :: rest => if c = col then v else colGetD rest col

/-- Write of a region's per-column dict: `table_dict[region][column] = row[1]`
(line 189), preserving insertion order. -/
def colSet (m : List (String × Int)) (col : String) (v : Int) : List (String × Int) :=
  match m with
  | [] => [(col, v)]
  | (c, v0) :: rest =>
      if c = col then (col, v) :: rest else (c, v0) :: colSet rest col v

/-- `table_dict` write for one row (lines 185-189): create the region's dict
when absent, then set the column's value; python dicts keep insertion
order. -/
def tableSet (td : List TableRow) (region col : String) (v : Int) : List TableRow :=
  match td with
  | [] => [(region, colSet [] col v)]
  | (r, m) :: rest =>
      if r = region then (r, colSet m col v) :: rest
      else (r, m) :: tableSet rest region col v

/-- Filling `table_dict` from the window columns (lines 172-189): for each
column in order, run its by-region rows with the `('Total', total)` row
appended. -/
def fillTable (windows : List WindowData) : List TableRow :=
  windows.foldl
    (fun td w =>
      (w.2.1 ++ [("Total", w.2.2)]).foldl
        (fun td2 row => tableSet td2 row.1 w.1 row.2) td)
    []

/-- Stable insertion of `x` into a descending-by-key list: `x` goes after
every element whose key is at least as large. -/
def insDesc (key : TableRow → Int) (x : TableRow) : List TableRow → List TableRow
  | [] => [x]
  | y :: ys => if key x ≤ key y then y :: insDesc key x ys else x :: y :: ys

/-- `sorted(table_dict.items(), key=lambda x: x[1][columns[-1]],
reverse=True)` (line 194): a stable descending sort by key. -/
def sortDescBy (key : TableRow → Int) (l : List TableRow) : List TableRow :=
  l.foldl (fun acc x => insDesc key x acc) []

/-- The printed report rows of one metric (lines 191-199): the merged table
sorted descending by the last column's value, truncated to the top 11 rows,
each row rendered as the region and its value in each column. -/
def buildRows (windows : List WindowData) : List (String × List Int) :=
  let td := fillTable windows
  let columns := windows.map (fun w => w.1)
  let lastCol := columns.getLastD ""
  ((sortDescBy (fun e => colGetD e.2 lastCol) td).take 11).map
    (fun e => (e.1, columns.map (fun c => colGetD e.2 c)))

/-- The last column's value of a rendered report row. -/
def lastVal (row : String × List Int) : Int := row.2.getLastD 0

/-- The scenario input of C4: three time windows, each with region rows
`[('US', 50), ('CA', 10)]` and total-query result 70. -/
def scenarioWindows : List WindowData :=
  [("Yesterday", [("US", 50), ("CA", 10)], 70),
   ("Previous Day", [("US", 50), ("CA", 10)], 70),
   ("Past Week", [("US", 50), ("CA", 10)], 70)]

/-- A counterexample input for C4 as stated: eleven regions whose counts all
exceed the total-query value (the three queries are external inputs; nothing
in the code constrains the total). -/
def elevenRegionRows : List (String × Int) :=
  [("R01", 100), ("R02", 100), ("R03", 100), ("R04", 100), ("R05", 100),
   ("R06", 100), ("R07", 100), ("R08", 100), ("R09", 100), ("R10", 100),
   ("R11", 100)]

/-- The three windows of the C4 counterexample: total-query value 0. -/
def cexWindows : List WindowData :=
  [("Yesterday", elevenRegionRows, 0),
   ("Previous Day", elevenRegionRows, 0),
   ("Past Week", elevenRegionRows, 0)]

/-- Writing a key and then reading it back gives the written group. -/
theorem statsGetD_statsSet (s : RawStats) (k : GroupKey) (g : RawGroup) :
    statsGetD (statsSet s k g) k = g := by
  induction s with
  | nil => simp [statsSet, statsGetD]
  | cons p rest ih =>
      obtain ⟨k0, g0⟩ := p
      by_cases h : k0 = k
      · simp [statsSet, statsGetD, h]
      · simp [statsSet, statsGetD, h, ih]

/-- C8: in the legacy extraction path, an entry with `responded="Yes"` and
`responseTime="120"` passes the response-check filter and normalizes to the
native boolean `true` and the native integer `120`. -/
theorem C8_legacy_coercion :
    legacyChecks
      [{ msg := "ServerResponseCheck",
         data := { responded := PyVal.str "Yes",
                   responseTime := PyVal.str "120" } }]
      = [{ responded := PyVal.bool true, responseTime := PyVal.int 120 }] := by
  decide

/-- C1: for every group, the fail-rate equals (checks with no usable response
time) / (total checks), equals 1 when no checks were observed, lies in [0,1],
and equals 1 iff no check has both `responded = true` and a (by construction of
`ResponseCheck`, numeric) response time. -/
theorem C1_failrate (checks : List ResponseCheck) :
    failrate checks =
      (if checks.length = 0 then (1 : ℚ)
       else ((checks.filter (fun r => !r.responded)).length : ℚ)
             / (checks.length : ℚ))
    ∧ 0 ≤ failrate checks ∧ failrate checks ≤ 1
    ∧ (failrate checks = 1 ↔ ∀ c ∈ checks, c.responded = false) := by
  have hmap : (responseTimes checks).length
      = (checks.filter (fun r => r.responded)).length := by
    simp [responseTimes]
  have hpart : checks.length
      = (checks.filter (fun r => r.responded)).length
        + (checks.filter (fun r => !r.responded)).length :=
    @List.length_eq_length_filter_add _ checks (fun r => r.responded)
  by_cases h0 : checks.length = 0
  · have hnil : checks = [] := List.length_eq_zero.mp h0
    subst hnil
    refine ⟨by simp [failrate], by simp [failrate], by simp [failrate], ?_⟩
    simp [failrate]
  · have hpos : (0 : ℚ) < (checks.length : ℚ) := by
      exact_mod_cast Nat.pos_of_ne_zero h0
    have hfr : failrate checks
        = ((checks.filter (fun r => !r.responded)).length : ℚ)
          / (checks.length : ℚ) := by
      rw [failrate, if_neg h0, hmap]
      rw [show ((checks.length : ℚ))
          = ((checks.filter (fun r => r.responded)).length : ℚ)
            + ((checks.filter (fun r => !r.responded)).length : ℚ) by
        exact_mod_cast congrArg (Nat.cast : ℕ → ℚ) hpart]
      ring
    have hle : ((checks.filter (fun r => !r.responded)).length : ℚ)
        ≤ (checks.length : ℚ) := by
      exact_mod_cast List.length_filter_le _ checks
    refine ⟨by rw [hfr, if_neg h0], ?_, ?_, ?_⟩
    · rw [hfr]; positivity
    · rw [hfr]
      exact div_le_one_of_le₀ hle (le_of_lt hpos)
    · rw [hfr]
      rw [div_eq_one_iff_eq (ne_of_gt hpos)]
      constructor
      · intro heq
        have hlen : (checks.filter (fun r => !r.responded)).length
            = checks.length := by exact_mod_cast heq
        have hzero : (checks.filter (fun r => r.responded)).length = 0 := by
          omega
        have hfil : checks.filter (fun r => r.responded) = [] :=
          List.length_eq_zero.mp hzero
        intro c hc
        by_contra hb
        have : c ∈ checks.filter (fun r => r.responded) := by
          refine List.mem_filter.mpr ⟨hc, ?_⟩
          simp at hb
          simp [hb]
        simp [hfil] at this
      · intro hall
        have hfil : checks.filter (fun r => r.responded) = [] := by
          refine List.filter_eq_nil_iff.mpr ?_
          intro c hc
          simp [hall c hc]
        have : (checks.filter (fun r => r.responded)).length = 0 := by
          simp [hfil]
        have : checks.length = (checks.filter (fun r => !r.responded)).length := by
          omega
        exact_mod_cast congrArg (Nat.cast : ℕ → ℚ) this.symm

/-- Writing a group whose count was incremented never leaves `raw_stats`
unchanged. -/
theorem statsSet_count_ne (s : RawStats) (k : GroupKey) (g : RawGroup)
    (hg : g.count = (statsGetD s k).count + 1) : statsSet s k g ≠ s := by
  intro h
  have hc := congrArg (fun t => (statsGetD t k).count) h
  simp only [statsGetD_statsSet] at hc
  omega

/-- C2 is false as stated: a legacy-path record that carries a propagation
channel id but lacks the sponsor id is excluded from aggregation (the state of
`raw_stats` is unchanged), although it carries one of the two identifiers. -/
theorem C2_counterexample :
    legacyStep []
      { propagation_channel_id := PyVal.str "CH1",
        sponsor_id := PyVal.none,
        diagnosticHistory :=
          [{ msg := "ServerResponseCheck",
             data := { responded := PyVal.bool true,
                       responseTime := PyVal.int 7 } }] } = ([] : RawStats)
    ∧ pyTruthy (PyVal.str "CH1") = true := by
  decide

/-- C2 (amended): in both extraction paths a record is excluded from
aggregation — `raw_stats` is left unchanged, with no error (both step
functions are total) — exactly when at least one of the propagation-channel
id and the sponsor id is absent or falsy; a record is aggregated only when
both identifiers are present and truthy. -/
theorem C2_exclusion_iff_missing_id :
    (∀ (s : RawStats) (rec : LegacyRec),
        legacyStep s rec = s
          ↔ (pyTruthy rec.propagation_channel_id = false
             ∨ pyTruthy rec.sponsor_id = false))
    ∧ (∀ (platform : String) (s : RawStats) (rec : CurrentRec),
        currentStep platform s rec = s
          ↔ (pyTruthy rec.propagation_channel_id = false
             ∨ pyTruthy rec.sponsor_id = false)) := by
  constructor
  · intro s rec
    constructor
    · intro h
      by_contra hcon
      push_neg at hcon
      obtain ⟨h1, h2⟩ := hcon
      simp only [Bool.not_eq_false] at h1 h2
      have h' : statsSet s ("android", rec.propagation_channel_id, rec.sponsor_id)
          { count := (statsGetD s ("android", rec.propagation_channel_id, rec.sponsor_id)).count + 1,
            response_checks :=
              (statsGetD s ("android", rec.propagation_channel_id, rec.sponsor_id)).response_checks
                ++ legacyChecks rec.diagnosticHistory,
            survey_results :=
              (statsGetD s ("android", rec.propagation_channel_id, rec.sponsor_id)).survey_results }
          = s := by
        simpa [legacyStep, h1, h2] using h
      exact statsSet_count_ne _ _ _ rfl h'
    · intro h
      rcases h with h | h <;> simp [legacyStep, h]
  · intro platform s rec
    constructor
    · intro h
      by_contra hcon
      push_neg at hcon
      obtain ⟨h1, h2⟩ := hcon
      simp only [Bool.not_eq_false] at h1 h2
      have h' : statsSet s (platform, rec.propagation_channel_id, rec.sponsor_id)
          { count := (statsGetD s (platform, rec.propagation_channel_id, rec.sponsor_id)).count + 1,
            response_checks :=
              (statsGetD s (platform, rec.propagation_channel_id, rec.sponsor_id)).response_checks
                ++ filterChecks rec.diagnosticHistory,
            survey_results :=
              (statsGetD s (platform, rec.propagation_channel_id, rec.sponsor_id)).survey_results
                ++ rec.surveyResults.getD [] }
          = s := by
        simpa [currentStep, h1, h2] using h
      exact statsSet_count_ne _ _ _ rfl h'
    · intro h
      rcases h with h | h <;> simp [currentStep, h]

/-- C3: when the assembled text+HTML message exceeds the 10 MiB ceiling,
`send_response` drops the HTML alternative, rebuilds the message as
plain-text-only, sends that instead, and the resent message's size is at most
the original message's size. -/
theorem C3_oversize_drops_html (t h : List Char) (ht : t ≠ []) (hh : h ≠ [])
    (s1 : Nat) (h1 : create_raw_email (bodyParts (some t) (some h)) = some s1)
    (hbig : s1 > SES_EMAIL_SIZE_LIMIT) :
    ∃ s2, send_response (some t) (some h) false
        = some ([(Mime.plain, t)], s2) ∧ s2 ≤ s1 := by
  have hb : bodyParts (some t) (some h) = [(Mime.plain, t), (Mime.html, h)] := by
    simp [bodyParts, optTruthy, ht, hh]
  have hs1 : s1 = 512 + (128 + t.length + (128 + h.length)) := by
    rw [hb] at h1
    simp [create_raw_email] at h1
    omega
  refine ⟨512 + (128 + t.length), ?_, by omega⟩
  simp only [send_response, hb, Bool.false_eq_true, if_false]
  rw [hb] at h1
  rw [h1]
  simp [hbig, create_raw_email, List.dropLast]

/-- Witness for C3 at a concrete 10 MiB+ plain body and a one-byte HTML
body. -/
theorem C3_witness :
    ∃ s2, send_response (some (List.replicate 10485800 'a')) (some ['b']) false
        = some ([(Mime.plain, List.replicate 10485800 'a')], s2)
        ∧ s2 ≤ 10486569 := by
  have key : ∀ T : List Char, T.length = 10485800 →
      create_raw_email (bodyParts (some T) (some ['b'])) = some 10486569 := by
    intro T hT
    have hTne : T ≠ [] := by
      intro hnil
      rw [hnil] at hT
      simp at hT
    have hb : bodyParts (some T) (some ['b'])
        = [(Mime.plain, T), (Mime.html, ['b'])] := by
      simp [bodyParts, optTruthy, hTne]
    rw [hb]
    simp [create_raw_email, hT]
  have hne : List.replicate 10485800 'a' ≠ [] := by
    intro hnil
    have h2 := congrArg List.length hnil
    rw [List.length_replicate] at h2
    exact absurd h2 (by norm_num)
  exact C3_oversize_drops_html _ _ hne (by simp) 10486569
    (key _ (List.length_replicate _ _)) (by norm_num [SES_EMAIL_SIZE_LIMIT])

/-- C10: with a non-empty plain-text body, no HTML body, and an assembled
message over the ceiling, the size-degrade `body.pop()` removes the only
(plain-text) part, the rebuilt body is empty, and `send_response` returns
without sending and without error. -/
theorem C10_oversize_text_only_sends_nothing (t : List Char) (ht : t ≠ [])
    (s1 : Nat) (h1 : create_raw_email (bodyParts (some t) Option.none) = some s1)
    (hbig : s1 > SES_EMAIL_SIZE_LIMIT) :
    (bodyParts (some t) Option.none).dropLast = []
    ∧ send_response (some t) Option.none false = Option.none := by
  have hb : bodyParts (some t) Option.none = [(Mime.plain, t)] := by
    simp [bodyParts, optTruthy, ht]
  refine ⟨by rw [hb]; rfl, ?_⟩
  simp only [send_response, hb, Bool.false_eq_true, if_false]
  rw [hb] at h1
  rw [h1]
  simp [hbig, create_raw_email, List.dropLast]

/-- Witness for C10 at a concrete 10 MiB+ plain body and no HTML body. -/
theorem C10_witness :
    (bodyParts (some (List.replicate 10485800 'a')) Option.none).dropLast = []
    ∧ send_response (some (List.replicate 10485800 'a')) Option.none false
        = Option.none := by
  have key : ∀ T : List Char, T.length = 10485800 →
      create_raw_email (bodyParts (some T) Option.none) = some 10486440 := by
    intro T hT
    have hTne : T ≠ [] := by
      intro hnil
      rw [hnil] at hT
      simp at hT
    have hb : bodyParts (some T) Option.none = [(Mime.plain, T)] := by
      simp [bodyParts, optTruthy, hTne]
    rw [hb]
    simp [create_raw_email, hT]
  have hne : List.replicate 10485800 'a' ≠ [] := by
    intro hnil
    have h2 := congrArg List.length hnil
    rw [List.length_replicate] at h2
    exact absurd h2 (by norm_num)
  exact C10_oversize_text_only_sends_nothing _ hne 10486440
    (key _ (List.length_replicate _ _)) (by norm_num [SES_EMAIL_SIZE_LIMIT])

/-- C6: for an address not currently blacklisted, the first
`check_and_add_response_address_blacklist` call returns `false` (not
blacklisted) and persists exactly one entry for the address, an immediately
following call with the same address returns `true` and changes nothing,
and no two entries for one address ever coexist (the at-most-one-per-address
invariant is preserved). -/
theorem C6_blacklist_check_and_add (store : Blacklist) (address : String)
    (t1 t2 : Nat) (hfresh : countAddr store address = 0) :
    (check_and_add_response_address_blacklist store address t1).1 = false
    ∧ countAddr (check_and_add_response_address_blacklist store address t1).2 address = 1
    ∧ (check_and_add_response_address_blacklist
        (check_and_add_response_address_blacklist store address t1).2 address t2).1 = true
    ∧ (check_and_add_response_address_blacklist
        (check_and_add_response_address_blacklist store address t1).2 address t2).2
      = (check_and_add_response_address_blacklist store address t1).2
    ∧ (∀ a, countAddr store a ≤ 1 →
        countAddr (check_and_add_response_address_blacklist store address t1).2 a ≤ 1) := by
  have hf : (store.filter (fun e => e.1 == address)).length = 0 := hfresh
  have hnil : store.filter (fun e => e.1 == address) = [] :=
    List.length_eq_zero.mp hf
  have hnone : store.any (fun e => e.1 == address) = false := by
    rw [List.any_eq_false]
    intro x hx hpx
    have hmem : x ∈ store.filter (fun e => e.1 == address) :=
      List.mem_filter.mpr ⟨hx, hpx⟩
    rw [hnil] at hmem
    exact absurd hmem (List.not_mem_nil x)
  have h1 : check_and_add_response_address_blacklist store address t1
      = (false, store ++ [(address, t1)]) := by
    simp [check_and_add_response_address_blacklist, hnone]
  have hc1 : countAddr (store ++ [(address, t1)]) address = 1 := by
    simp only [countAddr, List.filter_append, List.length_append]
    rw [hf]
    simp
  have hany2 : (store ++ [(address, t1)]).any (fun e => e.1 == address) = true := by
    simp [List.any_append]
  have h2 : check_and_add_response_address_blacklist
      (store ++ [(address, t1)]) address t2 = (true, store ++ [(address, t1)]) := by
    simp [check_and_add_response_address_blacklist, hany2]
  rw [h1]
  refine ⟨rfl, hc1, by rw [h2], by rw [h2], ?_⟩
  intro a ha
  by_cases hcase : a = address
  · subst hcase
    simp only [countAddr, List.filter_append, List.length_append]
    rw [hf]
    simp
  · simp only [countAddr, List.filter_append, List.length_append]
    have : ([(address, t1)].filter (fun e => e.1 == a)).length = 0 := by
      simp [List.filter_cons, Ne.symm hcase]
    rw [this]
    simpa [countAddr] using ha

/-- Witness for C6 on the empty blacklist and a concrete address. -/
theorem C6_witness :
    (check_and_add_response_address_blacklist [] "user@example.com" 1).1 = false
    ∧ countAddr (check_and_add_response_address_blacklist [] "user@example.com" 1).2
        "user@example.com" = 1
    ∧ (check_and_add_response_address_blacklist
        (check_and_add_response_address_blacklist [] "user@example.com" 1).2
        "user@example.com" 2).1 = true := by
  have h := C6_blacklist_check_and_add [] "user@example.com" 1 2 rfl
  exact ⟨h.1, h.2.1, h.2.2.1⟩

/-- C7: inserting a valid diagnostic record twice with the same `Metadata.id`
leaves exactly one stored document; the second call returns `None`, leaves
the store unchanged, and appends a duplicate-id error to the log instead of
raising. -/
theorem C7_duplicate_insert_once (store : List DiagDoc) (log : List String)
    (obj : DiagDoc) (i : String) (t1 t2 : Nat)
    (hid : obj.metadata_id = some i) (hfresh : countId store i = 0) :
    (insert_diagnostic_info store log obj t1).1 = some i
    ∧ countId (insert_diagnostic_info store log obj t1).2.1 i = 1
    ∧ (insert_diagnostic_info (insert_diagnostic_info store log obj t1).2.1
        (insert_diagnostic_info store log obj t1).2.2 obj t2).1 = Option.none
    ∧ (insert_diagnostic_info (insert_diagnostic_info store log obj t1).2.1
        (insert_diagnostic_info store log obj t1).2.2 obj t2).2.1
      = (insert_diagnostic_info store log obj t1).2.1
    ∧ (insert_diagnostic_info (insert_diagnostic_info store log obj t1).2.1
        (insert_diagnostic_info store log obj t1).2.2 obj t2).2.2
      = (insert_diagnostic_info store log obj t1).2.2
          ++ ["insert_diagnostic_info: duplicate id " ++ i] := by
  have hf : (store.filter (fun d => d.metadata_id == some i)).length = 0 := hfresh
  have hnil : store.filter (fun d => d.metadata_id == some i) = [] :=
    List.length_eq_zero.mp hf
  have hnone : store.any (fun d => d.metadata_id == some i) = false := by
    rw [List.any_eq_false]
    intro x hx hpx
    have hmem : x ∈ store.filter (fun d => d.metadata_id == some i) :=
      List.mem_filter.mpr ⟨hx, hpx⟩
    rw [hnil] at hmem
    exact absurd hmem (List.not_mem_nil x)
  have h1 : insert_diagnostic_info store log obj t1
      = (some i, store ++ [{ obj with datetime := t1 }], log) := by
    simp [insert_diagnostic_info, hid, hnone]
  have hany2 : (store ++ [{ obj with datetime := t1 }]).any
      (fun d => d.metadata_id == some i) = true := by
    simp [List.any_append, hid]
  have h2 : insert_diagnostic_info (store ++ [{ obj with datetime := t1 }]) log obj t2
      = (Option.none, store ++ [{ obj with datetime := t1 }],
         log ++ ["insert_diagnostic_info: duplicate id " ++ i]) := by
    simp [insert_diagnostic_info, hid, hany2]
  have hc1 : countId (store ++ [{ obj with datetime := t1 }]) i = 1 := by
    simp only [countId, List.filter_append, List.length_append]
    rw [hf]
    simp [hid]
  rw [h1]
  exact ⟨rfl, hc1, by rw [h2], by rw [h2], by rw [h2]⟩

/-- Witness for C7 on the empty store and a concrete record. -/
theorem C7_witness :
    (insert_diagnostic_info [] [] { metadata_id := some "fb1", datetime := 0 } 1).1
      = some "fb1"
    ∧ countId (insert_diagnostic_info [] []
        { metadata_id := some "fb1", datetime := 0 } 1).2.1 "fb1" = 1
    ∧ (insert_diagnostic_info
        (insert_diagnostic_info [] [] { metadata_id := some "fb1", datetime := 0 } 1).2.1
        (insert_diagnostic_info [] [] { metadata_id := some "fb1", datetime := 0 } 1).2.2
        { metadata_id := some "fb1", datetime := 0 } 2).1 = Option.none := by
  have h := C7_duplicate_insert_once [] [] { metadata_id := some "fb1", datetime := 0 }
    "fb1" 1 2 rfl rfl
  exact ⟨h.1, h.2.1, h.2.2.1⟩

/-- Invariant of a run of atomic pops: after `k` pops the first `k` entries
of the original queue have been handed out in order and the rest remain. -/
theorem runPops_spec (callers : List Nat) (q : List Nat) (ys : List (Nat × Nat)) :
    (runPops ⟨q, ys⟩ callers).queue = q.drop callers.length
    ∧ ((runPops ⟨q, ys⟩ callers).yields).map Prod.snd
        = ys.map Prod.snd ++ q.take callers.length := by
  induction callers generalizing q ys with
  | nil => simp [runPops]
  | cons c cs ih =>
      cases q with
      | nil =>
          have h := ih [] ys
          simpa [runPops, popStep] using h
      | cons e rest =>
          have h := ih rest (ys ++ [(c, e)])
          simpa [runPops, popStep, List.append_assoc] using h

/-- C9: an interleaving of `callers.length = N` atomic pops on a queue of `N`
distinct entries empties the queue, hands the entries out in order, and gives
every entry to exactly one caller (it appears exactly once among all
yields). -/
theorem C9_exactly_once_pop (q : List Nat) (callers : List Nat)
    (hlen : callers.length = q.length) (hnd : q.Nodup) :
    (runPops ⟨q, []⟩ callers).queue = []
    ∧ ((runPops ⟨q, []⟩ callers).yields).map Prod.snd = q
    ∧ (∀ e ∈ q,
        ((runPops ⟨q, []⟩ callers).yields.filter (fun p => p.2 == e)).length = 1) := by
  obtain ⟨hq, hy⟩ := runPops_spec callers q []
  rw [hlen] at hq hy
  rw [List.drop_length] at hq
  rw [List.take_length] at hy
  simp only [List.map_nil, List.nil_append] at hy
  refine ⟨hq, hy, ?_⟩
  intro e he
  have hcount : ((runPops ⟨q, []⟩ callers).yields.map Prod.snd).count e = 1 := by
    rw [hy]
    exact List.count_eq_one_of_mem hnd he
  rw [List.count_eq_countP, List.countP_map] at hcount
  rw [← List.countP_eq_length_filter]
  exact hcount

/-- Witness for C9: three entries, two concurrent callers, an interleaved
schedule. -/
theorem C9_witness :
    (runPops ⟨[10, 20, 30], []⟩ [5, 6, 5]).queue = []
    ∧ ((runPops ⟨[10, 20, 30], []⟩ [5, 6, 5]).yields.filter
        (fun p => p.2 == 20)).length = 1 := by
  have h := C9_exactly_once_pop [10, 20, 30] [5, 6, 5] (by decide) (by decide)
  exact ⟨h.1, h.2.2 20 (by decide)⟩

/-- The sorted sample is sorted. -/
theorem sortAsc_sorted (xs : List ℚ) : (sortAsc xs).Sorted (fun a b => a ≤ b) :=
  List.sorted_insertionSort _ xs

/-- Sorting preserves the sample size. -/
theorem sortAsc_length (xs : List ℚ) : (sortAsc xs).length = xs.length :=
  (List.perm_insertionSort _ xs).length_eq

/-- Sorting an already sorted sample changes nothing. -/
theorem sortAsc_idem (xs : List ℚ) : sortAsc (sortAsc xs) = sortAsc xs :=
  (sortAsc_sorted xs).insertionSort_eq

/-- In-range `getD` is `get`. -/
theorem getD_in_range (l : List ℚ) (n : Nat) (h : n < l.length) :
    l.getD n 0 = l.get ⟨n, h⟩ := by
  rw [List.getD_eq_getElem?_getD, List.getElem?_eq_getElem h, Option.getD_some]
  simp

/-- Clipped access into a sorted sample is monotone in the index. -/
theorem sortedNth_mono {s : List ℚ} (hs : s.Sorted (fun a b => a ≤ b))
    {i j : Nat} (hij : i ≤ j) : sortedNth s i ≤ sortedNth s j := by
  by_cases h0 : s.length = 0
  · have hnil : s = [] := List.length_eq_zero.mp h0
    subst hnil
    simp [sortedNth]
  · have hlen : 0 < s.length := Nat.pos_of_ne_zero h0
    have hi : min i (s.length - 1) < s.length := by omega
    have hj : min j (s.length - 1) < s.length := by omega
    have hmm : min i (s.length - 1) ≤ min j (s.length - 1) := by omega
    rw [sortedNth, sortedNth, getD_in_range s _ hi, getD_in_range s _ hj]
    exact @List.Sorted.rel_get_of_le _ _ ⟨fun a => le_refl a⟩ _ hs _ _ hmm

/-- The interpolated value lies between its two neighbouring sample points. -/
theorem interpAt_bounds {s : List ℚ} (hs : s.Sorted (fun a b => a ≤ b))
    {pos : ℚ} (hpos : 0 ≤ pos) :
    sortedNth s (Int.toNat ⌊pos⌋) ≤ interpAt s pos
    ∧ interpAt s pos ≤ sortedNth s (Int.toNat ⌊pos⌋ + 1) := by
  have hfl : (0 : ℤ) ≤ ⌊pos⌋ := Int.floor_nonneg.mpr hpos
  have hcast : ((Int.toNat ⌊pos⌋ : ℚ)) = ((⌊pos⌋ : ℤ) : ℚ) := by
    exact_mod_cast congrArg (fun z : ℤ => (z : ℚ)) (Int.toNat_of_nonneg hfl)
  have hfrac0 : 0 ≤ pos - (Int.toNat ⌊pos⌋ : ℚ) := by
    rw [hcast]
    have h := Int.floor_le pos
    linarith
  have hfrac1 : pos - (Int.toNat ⌊pos⌋ : ℚ) ≤ 1 := by
    rw [hcast]
    have h := Int.lt_floor_add_one pos
    push_cast at h
    linarith
  have hd : sortedNth s (Int.toNat ⌊pos⌋) ≤ sortedNth s (Int.toNat ⌊pos⌋ + 1) :=
    sortedNth_mono hs (Nat.le_succ _)
  rw [interpAt]
  constructor
  · nlinarith [mul_nonneg hfrac0 (sub_nonneg.mpr hd)]
  · nlinarith [mul_nonneg (sub_nonneg.mpr hfrac1) (sub_nonneg.mpr hd)]

/-- Linear interpolation over a sorted sample is monotone in the position. -/
theorem interpAt_mono {s : List ℚ} (hs : s.Sorted (fun a b => a ≤ b))
    {p1 p2 : ℚ} (h1 : 0 ≤ p1) (h12 : p1 ≤ p2) :
    interpAt s p1 ≤ interpAt s p2 := by
  have h2 : 0 ≤ p2 := le_trans h1 h12
  have hii : Int.toNat ⌊p1⌋ ≤ Int.toNat ⌊p2⌋ :=
    Int.toNat_le_toNat (Int.floor_le_floor h12)
  rcases Nat.lt_or_ge (Int.toNat ⌊p1⌋) (Int.toNat ⌊p2⌋) with hlt | hge
  · have b1 := (interpAt_bounds hs h1).2
    have b2 := (interpAt_bounds hs h2).1
    have mid : sortedNth s (Int.toNat ⌊p1⌋ + 1) ≤ sortedNth s (Int.toNat ⌊p2⌋) :=
      sortedNth_mono hs hlt
    linarith
  · have heq : Int.toNat ⌊p2⌋ = Int.toNat ⌊p1⌋ := le_antisymm hge hii
    have hfl : (0 : ℤ) ≤ ⌊p1⌋ := Int.floor_nonneg.mpr h1
    have hd : sortedNth s (Int.toNat ⌊p1⌋) ≤ sortedNth s (Int.toNat ⌊p1⌋ + 1) :=
      sortedNth_mono hs (Nat.le_succ _)
    simp only [interpAt, heq]
    nlinarith [mul_nonneg (sub_nonneg.mpr h12) (sub_nonneg.mpr hd)]

/-- `numpy.percentile` with linear interpolation is monotone in the
percentile rank, over any non-empty sample. -/
theorem percentileLinear_mono {xs : List ℚ} (hne : xs ≠ [])
    {q1 q2 : ℚ} (h1 : 0 ≤ q1) (h12 : q1 ≤ q2) :
    percentileLinear xs q1 ≤ percentileLinear xs q2 := by
  have h0 : xs.length ≠ 0 := fun h => hne (List.length_eq_zero.mp h)
  have hn1 : (0 : ℚ) ≤ (xs.length : ℚ) - 1 := by
    have hge : 1 ≤ xs.length := Nat.pos_of_ne_zero h0
    have hq : (1 : ℚ) ≤ (xs.length : ℚ) := by exact_mod_cast hge
    linarith
  simp only [percentileLinear, if_neg h0]
  apply interpAt_mono (sortAsc_sorted xs)
  · have := mul_nonneg h1 hn1
    linarith
  · have := mul_le_mul_of_nonneg_right h12 hn1
    linarith

/-- C5: the five percentiles of `_get_stats_helper` are monotone
(5th ≤ 25th ≤ 50th ≤ 75th ≤ 95th) for every non-empty sample, and the
computation is idempotent: recomputing the quartile summary on the
already-sorted (normalized) sample gives the same summary. -/
theorem C5_percentiles_monotone_idempotent (xs : List ℚ) (hne : xs ≠ []) :
    percentileLinear xs 5 ≤ percentileLinear xs 25
    ∧ percentileLinear xs 25 ≤ percentileLinear xs 50
    ∧ percentileLinear xs 50 ≤ percentileLinear xs 75
    ∧ percentileLinear xs 75 ≤ percentileLinear xs 95
    ∧ quartiles (sortAsc xs) = quartiles xs := by
  have hq : ∀ q : ℚ, percentileLinear (sortAsc xs) q = percentileLinear xs q := by
    intro q
    simp only [percentileLinear, sortAsc_length, sortAsc_idem]
  exact ⟨percentileLinear_mono hne (by norm_num) (by norm_num),
    percentileLinear_mono hne (by norm_num) (by norm_num),
    percentileLinear_mono hne (by norm_num) (by norm_num),
    percentileLinear_mono hne (by norm_num) (by norm_num),
    by simp only [quartiles]; rw [funext hq]⟩

/-- Witness for C5 on the concrete sample `[3, 1, 2]`. -/
theorem C5_witness :
    percentileLinear [3, 1, 2] 5 ≤ percentileLinear [3, 1, 2] 25
    ∧ quartiles (sortAsc [3, 1, 2]) = quartiles [3, 1, 2] := by
  have h := C5_percentiles_monotone_idempotent [3, 1, 2] (List.cons_ne_nil _ _)
  exact ⟨h.1, h.2.2.2.2⟩

/-- Membership after a descending insertion. -/
theorem insDesc_mem (key : TableRow → Int) (x b : TableRow) (l : List TableRow) :
    b ∈ insDesc key x l ↔ b = x ∨ b ∈ l := by
  induction l with
  | nil => simp [insDesc]
  | cons y ys ih =>
      by_cases hc : key x ≤ key y
      · simp only [insDesc, if_pos hc, List.mem_cons, ih]
        tauto
      · simp only [insDesc, if_neg hc, List.mem_cons]

/-- Descending insertion preserves descending order. -/
theorem insDesc_sorted (key : TableRow → Int) (x : TableRow) (l : List TableRow)
    (h : l.Pairwise (fun a b => key b ≤ key a)) :
    (insDesc key x l).Pairwise (fun a b => key b ≤ key a) := by
  induction l with
  | nil => simp [insDesc]
  | cons y ys ih =>
      rw [List.pairwise_cons] at h
      obtain ⟨hy, hys⟩ := h
      by_cases hc : key x ≤ key y
      · rw [insDesc, if_pos hc]
        refine List.pairwise_cons.mpr ⟨?_, ih hys⟩
        intro b hb
        rcases (insDesc_mem key x b ys).mp hb with rfl | hbys
        · exact hc
        · exact hy b hbys
      · push_neg at hc
        rw [insDesc, if_neg (not_le.mpr hc)]
        refine List.pairwise_cons.mpr ⟨?_, List.pairwise_cons.mpr ⟨hy, hys⟩⟩
        intro b hb
        rcases List.mem_cons.mp hb with rfl | hbys
        · exact le_of_lt hc
        · exact le_trans (hy b hbys) (le_of_lt hc)

/-- The stable descending sort sorts. -/
theorem sortDescBy_sorted (key : TableRow → Int) (l : List TableRow) :
    (sortDescBy key l).Pairwise (fun a b => key b ≤ key a) := by
  have hgen : ∀ (l2 acc : List TableRow),
      acc.Pairwise (fun a b => key b ≤ key a) →
      (l2.foldl (fun acc2 x => insDesc key x acc2) acc).Pairwise
        (fun a b => key b ≤ key a) := by
    intro l2
    induction l2 with
    | nil => intro acc h; simpa using h
    | cons x xs ih => intro acc h; exact ih _ (insDesc_sorted key x acc h)
  exact hgen l [] (by simp)

/-- A `table_dict` write either leaves the region keys unchanged or appends
the new region at the end. -/
theorem tableSet_keys (td : List TableRow) (region col : String) (v : Int) :
    (tableSet td region col v).map Prod.fst
      = if region ∈ td.map Prod.fst then td.map Prod.fst
        else td.map Prod.fst ++ [region] := by
  induction td with
  | nil => simp [tableSet]
  | cons p rest ih =>
      obtain ⟨r, m⟩ := p
      by_cases h : r = region
      · subst h
        simp [tableSet]
      · rw [tableSet, if_neg h]
        simp only [List.map_cons]
        rw [ih]
        by_cases hmem : region ∈ rest.map Prod.fst
        · simp [hmem, Ne.symm h]
        · simp [hmem, Ne.symm h]

/-- A `table_dict` write preserves uniqueness of the region keys. -/
theorem tableSet_nodup (td : List TableRow) (region col : String) (v : Int)
    (h : (td.map Prod.fst).Nodup) :
    ((tableSet td region col v).map Prod.fst).Nodup := by
  rw [tableSet_keys]
  by_cases hmem : region ∈ td.map Prod.fst
  · simpa [hmem] using h
  · rw [if_neg hmem, List.nodup_append]
    refine ⟨h, List.nodup_singleton _, ?_⟩
    intro a ha hb
    rw [List.mem_singleton] at hb
    subst hb
    exact hmem ha

/-- Folding one window's rows into `table_dict` preserves key uniqueness. -/
theorem foldRows_nodup (col : String) (rows : List (String × Int))
    (td : List TableRow) (h : (td.map Prod.fst).Nodup) :
    ((rows.foldl (fun td2 row => tableSet td2 row.1 col row.2) td).map
      Prod.fst).Nodup := by
  induction rows generalizing td with
  | nil => simpa using h
  | cons r rs ih => exact ih _ (tableSet_nodup _ _ _ _ h)

/-- The merged table is keyed by region: every region appears exactly once. -/
theorem fillTable_nodup (windows : List WindowData) :
    ((fillTable windows).map Prod.fst).Nodup := by
  have hgen : ∀ (ws : List WindowData) (td : List TableRow),
      (td.map Prod.fst).Nodup →
      ((ws.foldl
        (fun td3 w =>
          (w.2.1 ++ [("Total", w.2.2)]).foldl
            (fun td2 row => tableSet td2 row.1 w.1 row.2) td3) td).map
        Prod.fst).Nodup := by
    intro ws
    induction ws with
    | nil => intro td h; simpa using h
    | cons w rest ih => intro td h; exact ih _ (foldRows_nodup _ _ _ h)
  exact hgen windows [] (by simp)

/-- At most eleven rows are printed. -/
theorem buildRows_length_le (windows : List WindowData) :
    (buildRows windows).length ≤ 11 := by
  simp only [buildRows, List.length_map, List.length_take]
  exact min_le_left _ _

/-- The printed rows are in descending order of the last column's value. -/
theorem buildRows_sorted (windows : List WindowData) :
    (buildRows windows).Pairwise (fun a b => lastVal b ≤ lastVal a) := by
  by_cases hw : windows = []
  · subst hw
    simp [buildRows, fillTable, sortDescBy]
  · have hcol : windows.map (fun w => w.1) ≠ [] := by
      simpa using hw
    obtain ⟨g, hg⟩ : ∃ g, (windows.map (fun w => w.1)).getLast? = some g := by
      rcases hopt : (windows.map (fun w => w.1)).getLast? with _ | g
      · exact absurd (List.getLast?_eq_none_iff.mp hopt) hcol
      · exact ⟨g, hopt⟩
    have hlastCol : (windows.map (fun w => w.1)).getLastD "" = g := by
      rw [List.getLastD_eq_getLast?, hg]
      rfl
    have hrender : ∀ e : TableRow,
        lastVal (e.1, (windows.map (fun w => w.1)).map (fun c => colGetD e.2 c))
          = colGetD e.2 g := by
      intro e
      simp only [lastVal]
      rw [List.getLastD_eq_getLast?, List.getLast?_map, hg]
      rfl
    simp only [buildRows, hlastCol]
    rw [List.pairwise_map]
    refine List.Pairwise.imp ?_
      (List.Pairwise.sublist (List.take_sublist _ _)
        (sortDescBy_sorted (fun e => colGetD e.2 g) (fillTable windows)))
    intro a b hab
    rw [hrender a, hrender b]
    exact hab

/-- C4 is false as stated: with eleven regions whose last-column values all
exceed the total-query value, the printed table contains no `Total` row at
all (the code truncates to the top 11 rows, wherever the `Total` row
sorts). -/
theorem C4_counterexample :
    "Total" ∉ (buildRows cexWindows).map Prod.fst
    ∧ (buildRows cexWindows).length = 11 := by
  decide

/-- C4 (amended): the three window results are merged into one table keyed by
region (each region appears once) with one column per window label; a `Total`
row holding the separate total-query value is appended to each window's rows;
the output is sorted in descending order of the last column's value and
truncated to the top 11 rows — which equals the top 10 regions plus the
`Total` row whenever the `Total` row ranks among them, as in the scenario:
for region rows `[('US',50),('CA',10)]` and total 70 the table is the `Total`
row with value 70, then `US`, then `CA`. -/
theorem C4_region_table_amended :
    buildRows scenarioWindows
      = [("Total", [70, 70, 70]), ("US", [50, 50, 50]), ("CA", [10, 10, 10])]
    ∧ (∀ windows : List WindowData, ((fillTable windows).map Prod.fst).Nodup)
    ∧ (∀ windows : List WindowData, (buildRows windows).length ≤ 11)
    ∧ (∀ windows : List WindowData,
        (buildRows windows).Pairwise (fun a b => lastVal b ≤ lastVal a)) :=
  ⟨by decide, fillTable_nodup, buildRows_length_le, buildRows_sorted⟩
